import Mathlib

/-!
Shallow embedding of `src/cpp/src/parquet/encodings/decoder.h` (the abstract
`parquet::Decoder<DType>` contract and its default spaced-decode algorithm).

Modelling conventions:
* the caller-provided output buffer (a `T*` in C++) is a `List α`; an
  in-place store `buffer[i] = v` is `List.set`, an in-bounds read is
  `List.getD _ default`.  The claims under verification only exercise
  in-bounds executions, where this agrees with the pointer semantics;
* `int` counters are `Nat` (the claims never drive them negative);
* a C++ method that may `throw ParquetException` returns its buffer and
  state next to an `Except ParquetError` result, so that the contents of
  the caller's buffer at the moment an exception propagates stay visible;
* virtual dispatch of `Decode` inside `DecodeSpaced` is a function
  parameter `decodeFn` ranging over implementations of the dense decode.
-/

namespace Parquet

/-- The two exception messages thrown in decoder.h, as an error type. -/
inductive ParquetError where
  | unsupportedType
  | countMismatch
  deriving DecidableEq, Repr

/-- The exact `ParquetException` message texts from decoder.h. -/
def ParquetError.message : ParquetError → String
  | .unsupportedType => "Decoder does not implement this type."
  | .countMismatch => "Number of values / definition_levels read did not match"

/-- `arrow::BitUtil::GetBit(bits, i)`: bit `i % 8` of byte `i / 8`
(`bits[i / 8] & kBitmask[i % 8]`, with `kBitmask[j] = 1 << j`).  The byte
buffer is a `List Nat` of byte values; reading past the end yields 0. -/
def GetBit (bits : List Nat) (i : Nat) : Bool :=
  (bits.getD (i / 8) 0) &&& (1 <<< (i % 8)) != 0

/-- A dense-decode implementation, as seen by `DecodeSpaced`'s call to the
virtual `Decode(buffer, max_values)`: it receives the decoder state and the
output buffer, and returns the updated state, the updated buffer, and either
the number of values decoded or the exception it threw. -/
def DecodeFn (σ α : Type) : Type :=
  σ → List α → Nat → σ × List α × Except ParquetError Nat

/-- The base-class `Decoder<DType>::Decode`:
`throw ParquetException("Decoder does not implement this type.")`,
unconditionally, touching neither the state nor the buffer. -/
def Decode (s : σ) (buffer : List α) (max_values : Nat) :
    σ × List α × Except ParquetError Nat :=
  (s, buffer, Except.error ParquetError.unsupportedType)

/-- The redistribution loop of `DecodeSpaced`:
`for (int i = num_values - 1; i >= 0; i--) if (GetBit(valid_bits, off + i)) buffer[i] = buffer[--values_to_move];`
`spaceLoop valid i buf vtm` runs the body for indices `i - 1` down to `0`
with `values_to_move = vtm`, returning the final buffer and counter.
(`valid` already has the bit offset folded in.) -/
def spaceLoop [Inhabited α] (valid : Nat → Bool) :
    Nat → List α → Nat → List α × Nat
  | 0, buf, vtm => (buf, vtm)
  | i + 1, buf, vtm =>
    if valid i then
      spaceLoop valid i (buf.set i (buf.getD (vtm - 1) default)) (vtm - 1)
    else
      spaceLoop valid i buf vtm

/-- The trace of moves `(src, dest)` the redistribution loop performs: a move
`(vtm - 1, i)` for each valid index `i`, scanned from high to low. -/
def spaceMoves (valid : Nat → Bool) : Nat → Nat → List (Nat × Nat)
  | 0, _ => []
  | i + 1, vtm =>
    if valid i then (vtm - 1, i) :: spaceMoves valid i (vtm - 1)
    else spaceMoves valid i vtm

/-- Replay a list of moves: each `(src, dest)` stores `buf[src]` into
`buf[dest]`, in list order. -/
def applyMoves [Inhabited α] (buf : List α) : List (Nat × Nat) → List α
  | [] => buf
  | (src, dest) :: ms => applyMoves (buf.set dest (buf.getD src default)) ms

/-- `Decoder<DType>::DecodeSpaced(buffer, num_values, null_count, valid_bits,
valid_bits_offset)`, the default implementation, with the virtual `Decode`
supplied as `decodeFn`:

    int values_to_read = num_values - null_count;
    int values_read = Decode(buffer, values_to_read);
    if (values_read != values_to_read) throw ParquetException(...);
    int values_to_move = values_read;
    for (int i = num_values - 1; i >= 0; i--)
      if (GetBit(valid_bits, valid_bits_offset + i))
        buffer[i] = buffer[--values_to_move];
    return num_values;
-/
def DecodeSpaced [Inhabited α] (decodeFn : DecodeFn σ α) (s : σ)
    (buffer : List α) (num_values null_count : Nat)
    (valid_bits : List Nat) (valid_bits_offset : Nat) :
    σ × List α × Except ParquetError Nat :=
  let values_to_read := num_values - null_count
  match decodeFn s buffer values_to_read with
  | (s1, buf, Except.error e) => (s1, buf, Except.error e)
  | (s1, buf, Except.ok values_read) =>
    if values_read ≠ values_to_read then
      (s1, buf, Except.error ParquetError.countMismatch)
    else
      (s1,
       (spaceLoop (fun i => GetBit valid_bits (valid_bits_offset + i))
         num_values buf values_read).1,
       Except.ok num_values)

/-- The per-instance state of a decoder.  `descr` and `encoding` are the
`const` members `descr_` and `encoding_` of the base class, `num_values` is
the mutable `num_values_` counter.  `page` is the concrete page state a
subclass keeps (the base class stores none); it is modelled as the list of
values the loaded page decodes to. -/
structure DecoderState (δ ε α : Type) where
  descr : δ
  encoding : ε
  num_values : Nat
  page : List α
  deriving Repr, DecidableEq

/-- The protected constructor `Decoder(descr, encoding)`:
`descr_(descr), encoding_(encoding), num_values_(0)`. -/
def mkDecoder (d : δ) (e : ε) : DecoderState δ ε α :=
  { descr := d, encoding := e, num_values := 0, page := [] }

/-- `Decoder<DType>::values_left()`: `return num_values_;`. -/
def values_left (s : DecoderState δ ε α) : Nat :=
  s.num_values

/-- Modelled from the spec: `SetData` is pure virtual in decoder.h and its
concrete overrides are not in the sources; per the spec, `Load(count, buffer)`
"Must fully discard any unread state from a previous page.  Resets the
remaining-value counter to `count`."  The new page is modelled by the list of
values it decodes to. -/
def SetData (s : DecoderState δ ε α) (count : Nat) (vals : List α) :
    DecoderState δ ε α :=
  { s with num_values := count, page := vals }

/-- Modelled from the spec: no concrete `Decode` override is in the sources;
per the spec, `DecodeDense(maxCount)` "decodes up to `maxCount` values from
the current page into a caller-provided output region", returning `maxCount`
"unless the page has fewer remaining values, in which case it returns however
many remain (never more than remain)", and "decreases the remaining-value
counter by the number written".  Values are written at the front of the
buffer. -/
def DecodeDense (s : DecoderState δ ε α) (buffer : List α) (max_values : Nat) :
    DecoderState δ ε α × List α × Nat :=
  let n := min max_values s.num_values
  ({ s with num_values := s.num_values - n, page := s.page.drop n },
   s.page.take n ++ buffer.drop n, n)

/-- `DecodeDense` packaged as a `DecodeFn` (it never throws). -/
def denseStep (s : DecoderState δ ε α) (buffer : List α) (max_values : Nat) :
    DecoderState δ ε α × List α × Except ParquetError Nat :=
  let r := DecodeDense s buffer max_values
  (r.1, r.2.1, Except.ok r.2.2)

/-- One call against a decoder instance, for stating frame properties over
arbitrary call sequences. -/
inductive DecoderOp (α : Type) where
  | setData (count : Nat) (vals : List α)
  | decodeDense (buffer : List α) (max_values : Nat)
  | decodeSpaced (buffer : List α) (num_values null_count : Nat)
      (valid_bits : List Nat) (valid_bits_offset : Nat)

/-- Apply one call to the instance state. -/
def applyOp [Inhabited α] (s : DecoderState δ ε α) :
    DecoderOp α → DecoderState δ ε α
  | .setData count vals => SetData s count vals
  | .decodeDense buffer max_values => (DecodeDense s buffer max_values).1
  | .decodeSpaced buffer nv nc vb off =>
      (DecodeSpaced denseStep s buffer nv nc vb off).1

/-- Apply a sequence of calls, oldest first. -/
def applyOps [Inhabited α] : List (DecoderOp α) → DecoderState δ ε α →
    DecoderState δ ε α
  | [], s => s
  | op :: ops, s => applyOps ops (applyOp s op)

/-- Number of valid (set) bits among indices `0, …, i - 1`. -/
def countValid (valid : Nat → Bool) : Nat → Nat
  | 0 => 0
  | i + 1 => countValid valid i + (if valid i then 1 else 0)

/-! Helper lemmas about `List.getD`, `List.set` and `countValid`. -/

theorem getD_set_ne {α : Type} (l : List α) (i j : Nat) (a d : α) (h : i ≠ j) :
    (l.set i a).getD j d = l.getD j d := by
  simp [List.getD, List.getElem?_set_ne h]

theorem getD_set_eq {α : Type} (l : List α) (i : Nat) (a d : α) (h : i < l.length) :
    (l.set i a).getD i d = a := by
  simp [List.getD, List.getElem?_set_self, h]

theorem set_getD_self {α : Type} (l : List α) (i : Nat) (d : α) :
    l.set i (l.getD i d) = l := by
  induction l generalizing i with
  | nil => rfl
  | cons a l ih =>
    cases i with
    | zero => simp [List.getD]
    | succ n => simpa [List.getD] using congrArg (List.cons a) (ih n)

theorem getD_append_left {α : Type} (l l2 : List α) (j : Nat) (d : α)
    (h : j < l.length) : (l ++ l2).getD j d = l.getD j d := by
  simp [List.getD, List.getElem?_append_left h]

theorem getD_append_right {α : Type} (l l2 : List α) (j : Nat) (d : α)
    (h : l.length ≤ j) : (l ++ l2).getD j d = l2.getD (j - l.length) d := by
  simp [List.getD, List.getElem?_append_right h]

theorem getD_drop {α : Type} (l : List α) (k j : Nat) (d : α) :
    (l.drop k).getD j d = l.getD (k + j) d := by
  simp [List.getD, List.getElem?_drop]

theorem countValid_le (valid : Nat → Bool) (i : Nat) : countValid valid i ≤ i := by
  induction i with
  | zero => exact Nat.le_refl 0
  | succ i ih =>
    rw [countValid]
    by_cases h : valid i <;> simp [h] <;> omega

theorem countValid_mono (valid : Nat → Bool) {i j : Nat} (h : i ≤ j) :
    countValid valid i ≤ countValid valid j := by
  induction h with
  | refl => exact Nat.le_refl _
  | step h2 ih =>
    rw [countValid]
    exact Nat.le_trans ih (Nat.le_add_right _ _)

theorem countValid_succ_of_valid (valid : Nat → Bool) (i : Nat) (h : valid i = true) :
    countValid valid (i + 1) = countValid valid i + 1 := by
  rw [countValid]; simp [h]

theorem countValid_succ_of_invalid (valid : Nat → Bool) (i : Nat) (h : valid i = false) :
    countValid valid (i + 1) = countValid valid i := by
  rw [countValid]; simp [h]

/-! Reduction lemmas for `DecodeSpaced`, by cases on what the dense decode
returned. -/

theorem DecodeSpaced_ok {σ α : Type} [Inhabited α] (decodeFn : DecodeFn σ α)
    (s s1 : σ) (buffer buf : List α) (nv nc k : Nat) (vb : List Nat) (off : Nat)
    (hd : decodeFn s buffer (nv - nc) = (s1, buf, Except.ok k)) :
    DecodeSpaced decodeFn s buffer nv nc vb off
      = if k ≠ nv - nc then (s1, buf, Except.error ParquetError.countMismatch)
        else (s1, (spaceLoop (fun i => GetBit vb (off + i)) nv buf k).1,
              Except.ok nv) := by
  simp only [DecodeSpaced, hd]

theorem DecodeSpaced_err {σ α : Type} [Inhabited α] (decodeFn : DecodeFn σ α)
    (s s1 : σ) (buffer buf : List α) (nv nc : Nat) (vb : List Nat) (off : Nat)
    (e : ParquetError)
    (hd : decodeFn s buffer (nv - nc) = (s1, buf, Except.error e)) :
    DecodeSpaced decodeFn s buffer nv nc vb off = (s1, buf, Except.error e) := by
  simp only [DecodeSpaced, hd]

/-! Lemmas about the redistribution loop and its move trace. -/

theorem spaceLoop_eq_applyMoves {α : Type} [Inhabited α] (valid : Nat → Bool)
    (i : Nat) : ∀ (buf : List α) (vtm : Nat),
    (spaceLoop valid i buf vtm).1 = applyMoves buf (spaceMoves valid i vtm) := by
  induction i with
  | zero => intro buf vtm; rfl
  | succ i ih =>
    intro buf vtm
    by_cases h : valid i <;> simp [spaceLoop, spaceMoves, applyMoves, h, ih]

theorem spaceMoves_mem (valid : Nat → Bool) (i : Nat) :
    ∀ p ∈ spaceMoves valid i (countValid valid i),
      p.1 = countValid valid p.2 ∧ p.2 < i ∧ valid p.2 = true := by
  induction i with
  | zero => intro p hp; simp [spaceMoves] at hp
  | succ i ih =>
    intro p hp
    by_cases h : valid i
    · rw [countValid_succ_of_valid valid i h, spaceMoves] at hp
      simp only [h, if_true, Nat.add_sub_cancel] at hp
      rcases List.mem_cons.mp hp with hhead | htail
      · subst hhead
        exact ⟨rfl, Nat.lt_succ_self i, h⟩
      · obtain ⟨h1, h2, h3⟩ := ih p htail
        exact ⟨h1, Nat.lt_succ_of_lt h2, h3⟩
    · rw [countValid_succ_of_invalid valid i (by simpa using h), spaceMoves] at hp
      simp only [h, if_false] at hp
      obtain ⟨h1, h2, h3⟩ := ih p hp
      exact ⟨h1, Nat.lt_succ_of_lt h2, h3⟩

theorem spaceMoves_pairwise (valid : Nat → Bool) (i : Nat) :
    (spaceMoves valid i (countValid valid i)).Pairwise (fun p q => q.1 < p.1) := by
  induction i with
  | zero => simp [spaceMoves]
  | succ i ih =>
    by_cases h : valid i
    · rw [countValid_succ_of_valid valid i h, spaceMoves]
      simp only [h, if_true, Nat.add_sub_cancel]
      refine List.Pairwise.cons ?_ ih
      intro q hq
      obtain ⟨h1, h2, h3⟩ := spaceMoves_mem valid i q hq
      calc q.1 = countValid valid q.2 := h1
        _ < countValid valid (q.2 + 1) := by
            rw [countValid_succ_of_valid valid q.2 h3]; omega
        _ ≤ countValid valid i := countValid_mono valid h2
    · rw [countValid_succ_of_invalid valid i (by simpa using h), spaceMoves]
      simp only [h, if_false]
      exact ih

theorem spaceLoop_allValid {α : Type} [Inhabited α] (valid : Nat → Bool) (i : Nat)
    (hall : ∀ j, j < i → valid j = true) :
    ∀ buf : List α, spaceLoop valid i buf i = (buf, 0) := by
  induction i with
  | zero => intro buf; rfl
  | succ i ih =>
    intro buf
    rw [spaceLoop]
    simp only [hall i (Nat.lt_succ_self i), if_true, Nat.add_sub_cancel,
      set_getD_self]
    exact ih (fun j hj => hall j (Nat.lt_succ_of_lt hj)) buf

theorem spaceMoves_allValid (valid : Nat → Bool) (i : Nat)
    (hall : ∀ j, j < i → valid j = true) :
    spaceMoves valid i i = (List.range i).reverse.map (fun j => (j, j)) := by
  induction i with
  | zero => rfl
  | succ i ih =>
    rw [spaceMoves]
    simp only [hall i (Nat.lt_succ_self i), if_true, Nat.add_sub_cancel]
    rw [ih (fun j hj => hall j (Nat.lt_succ_of_lt hj)), List.range_succ]
    simp

/-- The full functional behaviour of the redistribution loop, run for indices
`i - 1` down to `0` with `values_to_move = countValid valid i`, on a buffer
whose first `countValid valid i` entries agree with the dense run `vals`:
it preserves the length, leaves every slot at index `≥ i` alone, stores
`vals[countValid valid j]` (the rank of `j` among valid indices) into every
valid slot `j < i`, and leaves every invalid slot `j < i` alone. -/
theorem spaceLoop_spec {α : Type} [Inhabited α] (valid : Nat → Bool)
    (vals : List α) (i : Nat) :
    ∀ buf : List α, i ≤ buf.length →
    (∀ j, j < countValid valid i → buf.getD j default = vals.getD j default) →
    ((spaceLoop valid i buf (countValid valid i)).1.length = buf.length ∧
     (∀ j, i ≤ j →
        (spaceLoop valid i buf (countValid valid i)).1.getD j default
          = buf.getD j default) ∧
     (∀ j, j < i → valid j = true →
        (spaceLoop valid i buf (countValid valid i)).1.getD j default
          = vals.getD (countValid valid j) default) ∧
     (∀ j, j < i → valid j = false →
        (spaceLoop valid i buf (countValid valid i)).1.getD j default
          = buf.getD j default)) := by
  induction i with
  | zero =>
    intro buf _ _
    exact ⟨rfl, fun j _ => rfl, fun j hj _ => absurd hj (Nat.not_lt_zero j),
      fun j hj _ => absurd hj (Nat.not_lt_zero j)⟩
  | succ i ih =>
    intro buf hlen hpre
    by_cases h : valid i
    · have hc := countValid_succ_of_valid valid i h
      have hcle : countValid valid i ≤ i := countValid_le valid i
      have hival : buf.getD (countValid valid i) default
          = vals.getD (countValid valid i) default :=
        hpre (countValid valid i) (by omega)
      have hloop : spaceLoop valid (i + 1) buf (countValid valid (i + 1))
          = spaceLoop valid i
              (buf.set i (buf.getD (countValid valid i) default))
              (countValid valid i) := by
        rw [hc, spaceLoop]
        simp only [h, if_true, Nat.add_sub_cancel]
      obtain ⟨L1, L2, L3, L4⟩ :=
        ih (buf.set i (buf.getD (countValid valid i) default))
          (by rw [List.length_set]; omega)
          (fun j hj => by
            rw [getD_set_ne _ _ _ _ _ (by omega)]
            exact hpre j (by omega))
      rw [hloop]
      refine ⟨by rw [L1, List.length_set], ?_, ?_, ?_⟩
      · intro j hj
        rw [L2 j (by omega), getD_set_ne _ _ _ _ _ (by omega)]
      · intro j hj hv
        rcases Nat.lt_or_ge j i with hji | hji
        · exact L3 j hji hv
        · have hje : j = i := by omega
          subst hje
          rw [L2 j (Nat.le_refl j), getD_set_eq _ _ _ _ (by omega), hival]
      · intro j hj hv
        have hji : j < i := by
          rcases Nat.lt_or_ge j i with hji | hji
          · exact hji
          · have : j = i := by omega
            subst this
            rw [h] at hv
            exact absurd hv (by simp)
        rw [L4 j hji hv, getD_set_ne _ _ _ _ _ (by omega)]
    · have hb : valid i = false := by simpa using h
      have hc := countValid_succ_of_invalid valid i hb
      have hloop : spaceLoop valid (i + 1) buf (countValid valid (i + 1))
          = spaceLoop valid i buf (countValid valid i) := by
        rw [hc, spaceLoop]
        simp only [hb, Bool.false_eq_true, if_false]
      obtain ⟨L1, L2, L3, L4⟩ := ih buf (by omega)
        (fun j hj => hpre j (by omega))
      rw [hloop]
      refine ⟨L1, fun j hj => L2 j (by omega), ?_, ?_⟩
      · intro j hj hv
        have hji : j < i := by
          rcases Nat.lt_or_ge j i with hji | hji
          · exact hji
          · have : j = i := by omega
            subst this
            rw [hb] at hv
            exact absurd hv (by simp)
        exact L3 j hji hv
      · intro j hj hv
        rcases Nat.lt_or_ge j i with hji | hji
        · exact L4 j hji hv
        · have : j = i := by omega
          subst this
          exact L2 j (Nat.le_refl j)

/-- The state component of the default `DecodeSpaced` over the modelled dense
decoder is exactly the state after the dense decode of
`num_values - null_count` values. -/
theorem decodeSpaced_denseStep_state {δ ε α : Type} [Inhabited α]
    (s : DecoderState δ ε α) (buffer : List α) (nv nc : Nat) (vb : List Nat)
    (off : Nat) :
    (DecodeSpaced denseStep s buffer nv nc vb off).1
      = (DecodeDense s buffer (nv - nc)).1 := by
  have hd : denseStep s buffer (nv - nc)
      = ((DecodeDense s buffer (nv - nc)).1, (DecodeDense s buffer (nv - nc)).2.1,
         Except.ok (DecodeDense s buffer (nv - nc)).2.2) := rfl
  rw [DecodeSpaced_ok denseStep s _ buffer _ nv nc _ vb off hd]
  split <;> rfl

/-! The claims. -/

/-- Claim C1 (amended): for every output buffer of `totalSlots` entries, every
null pattern whose `totalSlots` bits starting at `bitOffset` contain exactly
`nullCount` clear bits, and every page whose dense decode supplies
`totalSlots - nullCount` values, `DecodeSpaced` returns `totalSlots` and
leaves the buffer so that the non-null slots (bits set) hold exactly the
densely decoded values in their original relative order (slot `j` holds dense
value number `rank j` = number of set bits below `j`); null slots at index
`≥ totalSlots - nullCount` hold whatever the caller put there, untouched,
while null slots at index `< totalSlots - nullCount` hold the densely decoded
value that the dense front-fill wrote at that index. -/
theorem c1_decodeSpaced_spaced_layout {σ α : Type} [Inhabited α]
    (decodeFn : DecodeFn σ α) (s s1 : σ) (buffer vals : List α)
    (num_values null_count : Nat) (vb : List Nat) (off : Nat)
    (hnc : null_count ≤ num_values)
    (hbuf : buffer.length = num_values)
    (hvals : vals.length = num_values - null_count)
    (hcount : countValid (fun i => GetBit vb (off + i)) num_values
        = num_values - null_count)
    (hd : decodeFn s buffer (num_values - null_count)
        = (s1, vals ++ buffer.drop vals.length, Except.ok vals.length)) :
    (DecodeSpaced decodeFn s buffer num_values null_count vb off).1 = s1 ∧
    (DecodeSpaced decodeFn s buffer num_values null_count vb off).2.2
      = Except.ok num_values ∧
    (DecodeSpaced decodeFn s buffer num_values null_count vb off).2.1.length
      = num_values ∧
    (∀ j, j < num_values → GetBit vb (off + j) = true →
      (DecodeSpaced decodeFn s buffer num_values null_count vb off).2.1.getD j default
        = vals.getD (countValid (fun i => GetBit vb (off + i)) j) default) ∧
    (∀ j, j < num_values - null_count → GetBit vb (off + j) = false →
      (DecodeSpaced decodeFn s buffer num_values null_count vb off).2.1.getD j default
        = vals.getD j default) ∧
    (∀ j, num_values - null_count ≤ j → GetBit vb (off + j) = false →
      (DecodeSpaced decodeFn s buffer num_values null_count vb off).2.1.getD j default
        = buffer.getD j default) := by
  have hvc : vals.length = countValid (fun i => GetBit vb (off + i)) num_values := by
    rw [hvals, hcount]
  have hb1len : (vals ++ buffer.drop vals.length).length = num_values := by
    simp only [List.length_append, List.length_drop]
    omega
  have hred : DecodeSpaced decodeFn s buffer num_values null_count vb off
      = (s1, (spaceLoop (fun i => GetBit vb (off + i)) num_values
          (vals ++ buffer.drop vals.length)
          (countValid (fun i => GetBit vb (off + i)) num_values)).1,
          Except.ok num_values) := by
    rw [DecodeSpaced_ok decodeFn s s1 buffer (vals ++ buffer.drop vals.length)
      num_values null_count vals.length vb off hd]
    rw [if_neg (by omega), hvc]
  obtain ⟨L1, L2, L3, L4⟩ := spaceLoop_spec (fun i => GetBit vb (off + i)) vals
    num_values (vals ++ buffer.drop vals.length) (by omega)
    (fun j hj => getD_append_left _ _ _ _ (by omega))
  refine ⟨by rw [hred], by rw [hred], ?_, ?_, ?_, ?_⟩
  · rw [hred]
    simpa [hb1len] using L1
  · intro j hj hv
    rw [hred]
    exact L3 j hj hv
  · intro j hj hv
    rw [hred, L4 j (by omega) hv]
    exact getD_append_left _ _ _ _ (by omega)
  · intro j hj hv
    have hbj : (vals ++ buffer.drop vals.length).getD j default
        = buffer.getD j default := by
      rw [getD_append_right _ _ _ _ (by omega), getD_drop]
      congr 1
      omega
    rcases Nat.lt_or_ge j num_values with hjn | hjn
    · rw [hred, L4 j hjn hv, hbj]
    · rw [hred, L2 j hjn, hbj]

/-- Witness for C1's amended theorem at `totalSlots = 5`, pattern `10101`,
`nullCount = 2`, dense run `[1,2,3]`, caller buffer `[10,11,12,13,14]`. -/
theorem c1_witness :
    (2 ≤ 5 ∧ ([10,11,12,13,14] : List Nat).length = 5 ∧
     ([1,2,3] : List Nat).length = 5 - 2 ∧
     countValid (fun i => GetBit [21] (0 + i)) 5 = 5 - 2 ∧
     denseStep (⟨(), 0, 3, [1,2,3]⟩ : DecoderState Unit Nat Nat)
        [10,11,12,13,14] (5 - 2)
       = (⟨(), 0, 0, []⟩, ([1,2,3] : List Nat) ++ [10,11,12,13,14].drop
           ([1,2,3] : List Nat).length,
          Except.ok ([1,2,3] : List Nat).length)) ∧
    ((DecodeSpaced denseStep (⟨(), 0, 3, [1,2,3]⟩ : DecoderState Unit Nat Nat)
        [10,11,12,13,14] 5 2 [21] 0).1 = ⟨(), 0, 0, []⟩ ∧
     (DecodeSpaced denseStep (⟨(), 0, 3, [1,2,3]⟩ : DecoderState Unit Nat Nat)
        [10,11,12,13,14] 5 2 [21] 0).2.2 = Except.ok 5 ∧
     (DecodeSpaced denseStep (⟨(), 0, 3, [1,2,3]⟩ : DecoderState Unit Nat Nat)
        [10,11,12,13,14] 5 2 [21] 0).2.1.length = 5 ∧
     (∀ j, j < 5 → GetBit [21] (0 + j) = true →
       (DecodeSpaced denseStep (⟨(), 0, 3, [1,2,3]⟩ : DecoderState Unit Nat Nat)
          [10,11,12,13,14] 5 2 [21] 0).2.1.getD j default
         = ([1,2,3] : List Nat).getD (countValid (fun i => GetBit [21] (0 + i)) j)
             default) ∧
     (∀ j, j < 5 - 2 → GetBit [21] (0 + j) = false →
       (DecodeSpaced denseStep (⟨(), 0, 3, [1,2,3]⟩ : DecoderState Unit Nat Nat)
          [10,11,12,13,14] 5 2 [21] 0).2.1.getD j default
         = ([1,2,3] : List Nat).getD j default) ∧
     (∀ j, 5 - 2 ≤ j → GetBit [21] (0 + j) = false →
       (DecodeSpaced denseStep (⟨(), 0, 3, [1,2,3]⟩ : DecoderState Unit Nat Nat)
          [10,11,12,13,14] 5 2 [21] 0).2.1.getD j default
         = ([10,11,12,13,14] : List Nat).getD j default)) :=
  ⟨⟨by decide, by decide, by decide, by decide, rfl⟩,
   c1_decodeSpaced_spaced_layout denseStep ⟨(), 0, 3, [1,2,3]⟩ ⟨(), 0, 0, []⟩
     [10,11,12,13,14] [1,2,3] 5 2 [21] 0 (by decide) (by decide) (by decide)
     (by decide) rfl⟩

/-- Counterexample to C1 as stated: with `totalSlots = 5`, pattern `10101`
(byte `21`), `nullCount = 2`, dense run `[1,2,3]` and caller buffer
`[10,11,12,13,14]`, the result buffer is `[1,2,2,13,3]`: the null slot at
index 1 holds `2` (a leftover of the dense front-fill), not the caller's
value `11` — so null slots are not all left untouched. -/
theorem c1_counterexample :
    (DecodeSpaced denseStep (⟨(), 0, 3, [1,2,3]⟩ : DecoderState Unit Nat Nat)
        [10,11,12,13,14] 5 2 [21] 0).2.1 = [1,2,2,13,3] ∧
    ¬ (∀ j, j < 5 → GetBit [21] (0 + j) = false →
        (DecodeSpaced denseStep (⟨(), 0, 3, [1,2,3]⟩ : DecoderState Unit Nat Nat)
            [10,11,12,13,14] 5 2 [21] 0).2.1.getD j default
          = ([10,11,12,13,14] : List Nat).getD j default) :=
  ⟨rfl, by decide⟩

/-- Claim C2: for every null pattern with exactly `nullCount` clear bits among
the `totalSlots` addressed bits, the redistribution pass of `DecodeSpaced`
(the backward loop, whose writes are exactly the move trace `spaceMoves`)
moves each value from a source index that is at most the destination index it
moves into, and the source indices decrease strictly across the moves, so no
densely decoded value is overwritten before it has been relocated. -/
theorem c2_backward_moves_safe {α : Type} [Inhabited α]
    (num_values null_count : Nat) (vb : List Nat) (off : Nat)
    (hnc : null_count ≤ num_values)
    (hcount : countValid (fun i => GetBit vb (off + i)) num_values
        = num_values - null_count) :
    (∀ buf : List α,
      (spaceLoop (fun i => GetBit vb (off + i)) num_values buf
          (num_values - null_count)).1
        = applyMoves buf
            (spaceMoves (fun i => GetBit vb (off + i)) num_values
              (num_values - null_count))) ∧
    (∀ p ∈ spaceMoves (fun i => GetBit vb (off + i)) num_values
        (num_values - null_count), p.1 ≤ p.2) ∧
    (spaceMoves (fun i => GetBit vb (off + i)) num_values
        (num_values - null_count)).Pairwise (fun p q => q.1 < p.1) := by
  rw [← hcount]
  refine ⟨fun buf => spaceLoop_eq_applyMoves _ _ buf _, ?_,
    spaceMoves_pairwise _ _⟩
  intro p hp
  obtain ⟨h1, _, _⟩ := spaceMoves_mem _ _ p hp
  rw [h1]
  exact countValid_le _ _

/-- Witness for C2 at the `10101` pattern with `totalSlots = 5`,
`nullCount = 2`. -/
theorem c2_witness :
    (2 ≤ 5 ∧ countValid (fun i => GetBit [21] (0 + i)) 5 = 5 - 2) ∧
    ((∀ buf : List Nat,
       (spaceLoop (fun i => GetBit [21] (0 + i)) 5 buf (5 - 2)).1
         = applyMoves buf (spaceMoves (fun i => GetBit [21] (0 + i)) 5 (5 - 2))) ∧
     (∀ p ∈ spaceMoves (fun i => GetBit [21] (0 + i)) 5 (5 - 2), p.1 ≤ p.2) ∧
     (spaceMoves (fun i => GetBit [21] (0 + i)) 5 (5 - 2)).Pairwise
       (fun p q => q.1 < p.1)) :=
  ⟨⟨by decide, by decide⟩,
   c2_backward_moves_safe 5 2 [21] 0 (by decide) (by decide)⟩

/-- Claim C3: when the underlying dense decode returns a count `k` (which is
never more than requested), `DecodeSpaced` raises the decode-count-mismatch
error if and only if `k` is strictly less than `totalSlots - nullCount`; on
success no such error is raised. -/
theorem c3_mismatch_iff {σ α : Type} [Inhabited α] (decodeFn : DecodeFn σ α)
    (s s1 : σ) (buffer buf : List α) (num_values null_count k : Nat)
    (vb : List Nat) (off : Nat)
    (hd : decodeFn s buffer (num_values - null_count)
        = (s1, buf, Except.ok k))
    (hk : k ≤ num_values - null_count) :
    ((DecodeSpaced decodeFn s buffer num_values null_count vb off).2.2
        = Except.error ParquetError.countMismatch)
      ↔ k < num_values - null_count := by
  rw [DecodeSpaced_ok decodeFn s s1 buffer buf num_values null_count k vb off hd]
  by_cases hke : k = num_values - null_count
  · subst hke
    rw [if_neg (fun hne => hne rfl)]
    constructor
    · intro hcontra
      exact absurd hcontra (by simp)
    · intro hcontra
      exact absurd hcontra (by omega)
  · rw [if_pos hke]
    exact ⟨fun _ => Nat.lt_of_le_of_ne hk hke, fun _ => rfl⟩

/-- Witness for C3: a page with only 2 values left against a request needing
3 non-null values raises the mismatch error. -/
theorem c3_witness :
    (denseStep (⟨(), 0, 2, [7,8]⟩ : DecoderState Unit Nat Nat)
        [10,11,12,13,14] (5 - 2)
       = (⟨(), 0, 0, []⟩, [7,8,12,13,14], Except.ok 2) ∧ 2 ≤ 5 - 2) ∧
    (((DecodeSpaced denseStep (⟨(), 0, 2, [7,8]⟩ : DecoderState Unit Nat Nat)
        [10,11,12,13,14] 5 2 [21] 0).2.2
          = Except.error ParquetError.countMismatch) ↔ 2 < 5 - 2) :=
  ⟨⟨rfl, by decide⟩,
   c3_mismatch_iff denseStep ⟨(), 0, 2, [7,8]⟩ ⟨(), 0, 0, []⟩
     [10,11,12,13,14] [7,8,12,13,14] 5 2 2 [21] 0 rfl (by decide)⟩

/-- Claim C4: when the dense decode returned `k < totalSlots - nullCount`
values and wrote only the first `k` slots, `DecodeSpaced` fails with the
decode-count-mismatch error, the redistribution pass is never run (the buffer
is exactly the dense decode's buffer), output slots at index `k` and above are
left exactly as the caller provided them, and no partial-success count is
returned (the result is the error, not a count). -/
theorem c4_mismatch_no_partial_write {σ α : Type} [Inhabited α]
    (decodeFn : DecodeFn σ α) (s s1 : σ) (buffer buf : List α)
    (num_values null_count k : Nat) (vb : List Nat) (off : Nat)
    (hd : decodeFn s buffer (num_values - null_count)
        = (s1, buf, Except.ok k))
    (hk : k < num_values - null_count)
    (hw : buf.drop k = buffer.drop k) :
    DecodeSpaced decodeFn s buffer num_values null_count vb off
        = (s1, buf, Except.error ParquetError.countMismatch) ∧
    (DecodeSpaced decodeFn s buffer num_values null_count vb off).2.1.drop k
        = buffer.drop k := by
  have h1 : DecodeSpaced decodeFn s buffer num_values null_count vb off
      = (s1, buf, Except.error ParquetError.countMismatch) := by
    rw [DecodeSpaced_ok decodeFn s s1 buffer buf num_values null_count k vb off hd]
    rw [if_pos (by omega)]
  refine ⟨h1, ?_⟩
  rw [h1]
  exact hw

/-- Witness for C4: page `[7,8]` exhausted against a request needing 3 dense
values; slots from index 2 up stay as the caller provided. -/
theorem c4_witness :
    (denseStep (⟨(), 0, 2, [7,8]⟩ : DecoderState Unit Nat Nat)
        [10,11,12,13,14] (5 - 2)
       = (⟨(), 0, 0, []⟩, [7,8,12,13,14], Except.ok 2) ∧
     2 < 5 - 2 ∧
     ([7,8,12,13,14] : List Nat).drop 2 = [10,11,12,13,14].drop 2) ∧
    (DecodeSpaced denseStep (⟨(), 0, 2, [7,8]⟩ : DecoderState Unit Nat Nat)
        [10,11,12,13,14] 5 2 [21] 0
        = (⟨(), 0, 0, []⟩, [7,8,12,13,14],
           Except.error ParquetError.countMismatch) ∧
     (DecodeSpaced denseStep (⟨(), 0, 2, [7,8]⟩ : DecoderState Unit Nat Nat)
        [10,11,12,13,14] 5 2 [21] 0).2.1.drop 2
        = ([10,11,12,13,14] : List Nat).drop 2) :=
  ⟨⟨rfl, by decide, rfl⟩,
   c4_mismatch_no_partial_write denseStep ⟨(), 0, 2, [7,8]⟩ ⟨(), 0, 0, []⟩
     [10,11,12,13,14] [7,8,12,13,14] 5 2 2 [21] 0 rfl (by decide) rfl⟩

/-- Claim C5: for every loaded page with `N` remaining values and every
`maxCount ≤ N`, `DecodeDense(maxCount)` returns exactly `maxCount`, never
more than the remaining count, and decreases `ValuesLeft()` by the number of
values written. -/
theorem c5_decodeDense_exact {δ ε α : Type} (s : DecoderState δ ε α)
    (buffer : List α) (max_values : Nat) (h : max_values ≤ values_left s) :
    (DecodeDense s buffer max_values).2.2 = max_values ∧
    (DecodeDense s buffer max_values).2.2 ≤ values_left s ∧
    values_left (DecodeDense s buffer max_values).1
      = values_left s - (DecodeDense s buffer max_values).2.2 := by
  have hn : min max_values s.num_values = max_values :=
    Nat.min_eq_left h
  refine ⟨?_, ?_, ?_⟩ <;> simp only [DecodeDense, values_left] <;> omega

/-- Witness for C5: a page of 5 values, request 3. -/
theorem c5_witness :
    3 ≤ values_left (⟨(), 0, 5, [1,2,3,4,5]⟩ : DecoderState Unit Nat Nat) ∧
    ((DecodeDense (⟨(), 0, 5, [1,2,3,4,5]⟩ : DecoderState Unit Nat Nat)
        [0,0,0] 3).2.2 = 3 ∧
     (DecodeDense (⟨(), 0, 5, [1,2,3,4,5]⟩ : DecoderState Unit Nat Nat)
        [0,0,0] 3).2.2
       ≤ values_left (⟨(), 0, 5, [1,2,3,4,5]⟩ : DecoderState Unit Nat Nat) ∧
     values_left (DecodeDense (⟨(), 0, 5, [1,2,3,4,5]⟩ : DecoderState Unit Nat Nat)
        [0,0,0] 3).1
       = values_left (⟨(), 0, 5, [1,2,3,4,5]⟩ : DecoderState Unit Nat Nat)
         - (DecodeDense (⟨(), 0, 5, [1,2,3,4,5]⟩ : DecoderState Unit Nat Nat)
             [0,0,0] 3).2.2) :=
  ⟨by decide,
   c5_decodeDense_exact ⟨(), 0, 5, [1,2,3,4,5]⟩ [0,0,0] 3 (by decide)⟩

/-- Claim C6: after `SetData(count, …)` — including a second call on the same
instance while a previous page still has unread values — `values_left()`
returns the new count, regardless of the prior state. -/
theorem c6_setData_resets_count {δ ε α : Type} (s : DecoderState δ ε α)
    (count : Nat) (vals : List α) :
    values_left (SetData s count vals) = count :=
  rfl

/-- Claim C7: with `nullCount = 0` and all `totalSlots` addressed bits set,
`DecodeSpaced` produces exactly the same state (hence remaining-value
counter) and buffer contents as the plain dense decode of `totalSlots`
values, and its move trace touches every slot exactly once, front-to-back,
moving each value onto itself (no value is moved twice). -/
theorem c7_allValid_is_dense {σ α : Type} [Inhabited α]
    (decodeFn : DecodeFn σ α) (s s1 : σ) (buffer buf1 : List α)
    (num_values : Nat) (vb : List Nat) (off : Nat)
    (hall : ∀ i, i < num_values → GetBit vb (off + i) = true)
    (hd : decodeFn s buffer num_values = (s1, buf1, Except.ok num_values)) :
    DecodeSpaced decodeFn s buffer num_values 0 vb off
      = (s1, buf1, Except.ok num_values) ∧
    spaceMoves (fun i => GetBit vb (off + i)) num_values num_values
      = (List.range num_values).reverse.map (fun j => (j, j)) := by
  constructor
  · have hd2 : decodeFn s buffer (num_values - 0)
        = (s1, buf1, Except.ok num_values) := by
      rw [Nat.sub_zero]
      exact hd
    rw [DecodeSpaced_ok decodeFn s s1 buffer buf1 num_values 0 num_values vb off hd2]
    rw [if_neg (by omega)]
    rw [spaceLoop_allValid _ num_values (fun j hj => hall j hj) buf1]
  · exact spaceMoves_allValid _ num_values (fun j hj => hall j hj)

/-- Witness for C7: 3 slots, all bits set (byte `7`), page `[4,5,6]`. -/
theorem c7_witness :
    ((∀ i, i < 3 → GetBit [7] (0 + i) = true) ∧
     denseStep (⟨(), 0, 3, [4,5,6]⟩ : DecoderState Unit Nat Nat) [0,0,0] 3
       = (⟨(), 0, 0, []⟩, [4,5,6], Except.ok 3)) ∧
    (DecodeSpaced denseStep (⟨(), 0, 3, [4,5,6]⟩ : DecoderState Unit Nat Nat)
        [0,0,0] 3 0 [7] 0 = (⟨(), 0, 0, []⟩, [4,5,6], Except.ok 3) ∧
     spaceMoves (fun i => GetBit [7] (0 + i)) 3 3
       = (List.range 3).reverse.map (fun j => (j, j))) :=
  ⟨⟨by decide, rfl⟩,
   c7_allValid_is_dense denseStep ⟨(), 0, 3, [4,5,6]⟩ ⟨(), 0, 0, []⟩
     [0,0,0] [4,5,6] 3 [7] 0 (by decide) rfl⟩

/-- Claim C8: the base contract's `Decode` raises the unsupported-operation
error for every input (state, buffer, requested count), providing no decoding
itself: state and buffer come back unchanged with the error. -/
theorem c8_base_decode_unsupported {σ α : Type} (s : σ) (buffer : List α)
    (max_values : Nat) :
    Decode s buffer max_values
      = (s, buffer, Except.error ParquetError.unsupportedType) :=
  rfl

/-- Claim C9: `encoding()` returns the encoding tag fixed at construction
after any sequence of `SetData` / `Decode` / `DecodeSpaced` calls — no
operation of the decoder changes the encoding identity. -/
theorem c9_encoding_invariant {δ ε α : Type} [Inhabited α]
    (ops : List (DecoderOp α)) (s : DecoderState δ ε α) :
    (applyOps ops s).encoding = s.encoding := by
  induction ops generalizing s with
  | nil => rfl
  | cons op ops ih =>
    rw [applyOps, ih]
    cases op with
    | setData count vals => rfl
    | decodeDense buffer max_values => rfl
    | decodeSpaced buffer nv nc vb off =>
      show (DecodeSpaced denseStep s buffer nv nc vb off).1.encoding = s.encoding
      rw [decodeSpaced_denseStep_state]
      rfl

/-- Claim C10: the default `DecodeSpaced` unconditionally invokes the dense
decode, so on a decoder that has not overridden the base `Decode` it raises
the unsupported-operation error for every input — including an all-null
request (`nullCount = totalSlots`) — instead of returning `totalSlots`. -/
theorem c10_base_decodeSpaced_unsupported {σ α : Type} [Inhabited α] (s : σ)
    (buffer : List α) (num_values null_count : Nat) (vb : List Nat)
    (off : Nat) :
    DecodeSpaced Decode s buffer num_values null_count vb off
      = (s, buffer, Except.error ParquetError.unsupportedType) :=
  rfl

end Parquet
